import Mathlib

/-!
Shallow embedding of the Analog-TV-Noise-Effect engine
(`effects/effect-creator.js`, given here as `src/unnamed/part_001`; the
sound-free variant is `src/unnamed/part_000`).

Modelling conventions:
* JavaScript numbers that hold pixel data are modelled as `Nat` (the values
  stored in a `Uint32Array` are the 32-bit patterns, i.e. naturals `< 2^32`).
* `Math.random()` results are modelled by an explicit stream of rationals
  `r` with `0 ≤ r < 1`; the generator consumes one value per grain block,
  indexed by the block's origin coordinates (each block origin receives an
  independent draw, exactly as each loop iteration performs one
  `Math.random()` call).
* `window.innerWidth` / `window.innerHeight` are CSS-pixel dimensions,
  modelled as `Nat` (so JavaScript's `Math.floor(a / b)` on them is `Nat`
  division).
* `ImageData` bytes are RGBA in memory; on the little-endian machines the
  `Uint32Array` aliasing assumes, a stored 32-bit value `v` has red byte
  `v % 256`, green byte `v / 256 % 256`, blue byte `v / 65536 % 256` and
  alpha byte `v / 16777216`.
-/

namespace TVNoise

/-- The effect configuration (`EffectConfig` in the source, after
`createEffect` has filled in the defaults `withSound := false`,
`soundVolume := 0.05`). -/
structure EffectConfig where
  isColor : Bool
  grainSize : Nat
  updateInterval : Nat
  withSound : Bool := false
  soundVolume : ℚ := 5 / 100
  deriving Repr, DecidableEq

/-- JavaScript `ToInt32` truncation as applied by the bitwise operators
(`<<`, `|`) to a non-negative fractional value: truncation toward zero,
which for non-negative arguments is the floor. -/
def jsTrunc (q : ℚ) : Nat := q.floor.toNat

/-- The `pixelColor` computed for one grain block in `generateFrames`
(lines 68–75 of the source), as the 32-bit pattern stored into the
`Uint32Array`:

* colored: `(255 << 24) | (Math.random() * 0x1000000)` — the random 24-bit
  value is truncated by `|`; the `int32` result's bit pattern, reinterpreted
  unsigned by the `Uint32Array` store, is `0xFF000000 ||| low24`;
* grayscale: `(255 << 24) | (gray << 16) | (gray << 8) | gray` with
  `gray = Math.random() * 255` — each shift truncates the same float to the
  same integer, so we truncate once. -/
def pixelColor (isColor : Bool) (r : ℚ) : Nat :=
  if isColor then
    (255 <<< 24) ||| jsTrunc (r * 0x1000000)
  else
    let gray := jsTrunc (r * 255)
    (255 <<< 24) ||| (gray <<< 16) ||| (gray <<< 8) ||| gray

/-! ### Frame generation (`generateFrames`, source lines 58–85)

The source iterates `for (let y = 0; y < height; y += grainSize)` (and
likewise for `x`); for `grainSize ≥ 1` the iterates are the multiples of
`grainSize` below the limit, enumerated by `blockStarts` (for
`grainSize = 0` the JavaScript loop would never terminate, so the model is
only meaningful for `grainSize ≥ 1`, the configuration invariant). -/

/-- The loop iterates of `for (v = 0; v < limit; v += g)` for `g ≥ 1`. -/
def blockStarts (g limit : ℕ) : List ℕ :=
  (List.range ((limit + g - 1) / g)).map (· * g)

/-- The buffer indices `blockY * width + blockX` written by the inner
block-fill loops (source lines 77–81) for the block with origin `(x, y)`:
`blockY` ranges over `[y, min (y+g) height)` and `blockX` over
`[x, min (x+g) width)` — the block clipped to the surface. -/
def blockPixels (width height g x y : ℕ) : List ℕ :=
  (List.range' y (min (y + g) height - y)).flatMap fun blockY =>
    (List.range' x (min (x + g) width - x)).map fun blockX =>
      blockY * width + blockX

/-- `buffer32[blockY * width + blockX] = pixelColor` over the whole block:
the two inner loops of `generateFrames`. -/
def fillBlock (width height g x y c : ℕ) (buf : List ℕ) : List ℕ :=
  (blockPixels width height g x y).foldl (fun b i => b.set i c) buf

/-- One frame buffer: the fresh `Uint32Array` (zero-initialised, as
`new ArrayBuffer` is) written block by block with one sampled color per
block.  `rng y x` is the `Math.random()` draw consumed at block origin
`(x, y)`. -/
def generateFrame (cfg : EffectConfig) (rng : ℕ → ℕ → ℚ)
    (width height : ℕ) : List ℕ :=
  (blockStarts cfg.grainSize height).foldl
    (fun buf y =>
      (blockStarts cfg.grainSize width).foldl
        (fun buf x =>
          fillBlock width height cfg.grainSize x y
            (pixelColor cfg.isColor (rng y x)) buf)
        buf)
    (List.replicate (width * height) 0)

/-- `state.frameCount`: the number of pre-generated frames, fixed at 10. -/
def frameCount : ℕ := 10

/-- `generateFrames`: discard `state.frames` and produce `frameCount`
fresh, independently sampled frame buffers (`rng i` is the random stream
consumed by the `i`-th frame). -/
def generateFrames (cfg : EffectConfig) (rng : ℕ → ℕ → ℕ → ℚ)
    (width height : ℕ) : List (List ℕ) :=
  (List.range frameCount).map fun i => generateFrame cfg (rng i) width height

/-! ### Engine state, scheduler and lifecycle (source lines 44–167)

The per-instance closure state (`state` in the source) together with the
bound canvas.  `requestAnimationFrame` handles are opaque nonzero integers;
we model holding one as `some 1` (the source only ever tests the handle for
truthiness, and real handles are never `0`).  The audio context is modelled
by its presence (`Option Unit`); the asynchronous `close().then(...)`
nulling in `stop` is modelled as having completed. -/

/-- The output surface: assigning `canvas.width`/`canvas.height` resets the
bitmap (so `displayed := none`); `ctx.putImageData` replaces `displayed`. -/
structure Canvas where
  width : ℕ
  height : ℕ
  displayed : Option (List ℕ)
  deriving Repr, DecidableEq

/-- The closure state created per canvas (source lines 45–53), plus the
canvas it draws to. -/
structure EngineState where
  frameCount : ℕ
  frames : List (List ℕ)
  currentFrame : ℕ
  frameCounter : ℕ
  animationFrameId : Option ℕ
  audioContext : Option Unit
  canvas : Canvas
  deriving Repr, DecidableEq

/-- The state of a freshly created effect instance. -/
def initState (canvas : Canvas) : EngineState where
  frameCount := 10
  frames := []
  currentFrame := 0
  frameCounter := 0
  animationFrameId := none
  audioContext := none
  canvas := canvas

/-- `setup` (source lines 104–109): compute the downscaled dimensions from
the viewport, assign them to the canvas (which clears its bitmap) and
regenerate the frame cache.  `innerWidth`/`innerHeight` are the viewport's
CSS-pixel dimensions. -/
def setup (cfg : EffectConfig) (rng : ℕ → ℕ → ℕ → ℚ)
    (innerWidth innerHeight : ℕ) (s : EngineState) : EngineState :=
  let scale := if cfg.grainSize > 1 then cfg.grainSize else 1
  let w := innerWidth / scale
  let h := innerHeight / scale
  { s with
    canvas := { width := w, height := h, displayed := none }
    frames := generateFrames cfg rng w h }

/-- One tick of `animate` (source lines 90–99).  Returns the new state and
an observation: `some i` when this tick called `putImageData` with frame
`i`, `none` when it drew nothing. -/
def animate (cfg : EffectConfig) (s : EngineState) : EngineState × Option ℕ :=
  let s := { s with animationFrameId := some 1,
                    frameCounter := s.frameCounter + 1 }
  if s.frameCounter ≥ cfg.updateInterval then
    ({ s with frameCounter := 0
              canvas := { s.canvas with displayed := s.frames[s.currentFrame]? }
              currentFrame := (s.currentFrame + 1) % s.frameCount },
     some s.currentFrame)
  else (s, none)

/-- `n` consecutive scheduler ticks, with the per-tick draw log. -/
def runTicks (cfg : EffectConfig) (s : EngineState) : ℕ → EngineState × List (Option ℕ)
  | 0 => (s, [])
  | n + 1 =>
    let r := runTicks cfg s n
    let step := animate cfg r.1
    (step.1, r.2 ++ [step.2])

/-- Whether tick number `t` (1-based) performs a draw. -/
def drewAt (cfg : EffectConfig) (s : EngineState) (t : ℕ) : Bool :=
  (animate cfg (runTicks cfg s (t - 1)).1).2.isSome

/-- `stop` (source lines 153–164): cancel the pending animation frame if
one is scheduled, and close the audio context if one exists (its `then`
callback nulls the field; we model that completion). -/
def stop (s : EngineState) : EngineState :=
  let s1 := if s.animationFrameId.isSome
    then { s with animationFrameId := none } else s
  if s1.audioContext.isSome then { s1 with audioContext := none } else s1

/-- `setupAudio` (source lines 114–143).  `audioOk` abstracts whether the
environment lets the audio pipeline construction succeed; on failure the
`catch` block closes the partially created context and nulls the field. -/
def setupAudio (cfg : EffectConfig) (audioOk : Bool) (s : EngineState) :
    EngineState :=
  if !cfg.withSound || s.audioContext.isSome then s
  else if audioOk then { s with audioContext := some () }
  else { s with audioContext := none }

/-- `start` (source lines 147–152): `setup()`, one synchronous `animate()`
call (which schedules the recurring ticks), then `await setupAudio()`.
The second component is the first tick's draw observation. -/
def start (cfg : EffectConfig) (rng : ℕ → ℕ → ℕ → ℚ)
    (innerWidth innerHeight : ℕ) (audioOk : Bool) (s : EngineState) :
    EngineState × Option ℕ :=
  let s1 := setup cfg rng innerWidth innerHeight s
  let step := animate cfg s1
  (setupAudio cfg audioOk step.1, step.2)

/-- `resize` is exactly `setup` (source line 166). -/
def resize (cfg : EffectConfig) (rng : ℕ → ℕ → ℕ → ℚ)
    (innerWidth innerHeight : ℕ) (s : EngineState) : EngineState :=
  setup cfg rng innerWidth innerHeight s

/-! ### Closed form of the scheduler -/

/-- Whether (1-based) tick `t` performs a draw when `updateInterval = k`
and the counter started at `0`: every tick when `k ≤ 1`, else exactly the
ticks divisible by `k`. -/
def draws (k t : ℕ) : Bool := decide (k ≤ 1) || decide (t % k = 0)

/-- How many of the first `n` ticks draw, under the same conditions. -/
def drawCount (k n : ℕ) : ℕ := if k ≤ 1 then n else n / k

/-! ### Concrete fixtures used by witnesses and counterexamples -/

/-- A canvas as first handed to the effect (dimensions are overwritten by
`setup`). -/
def canvas0 : Canvas := { width := 0, height := 0, displayed := none }

/-- A concrete random stream: every draw is `0`. -/
def rng0 : ℕ → ℕ → ℕ → ℚ := fun _ _ _ => 0

/-- A mid-animation engine state: playback index `3`, tick counter `2`. -/
def midState : EngineState where
  frameCount := 10
  frames := []
  currentFrame := 3
  frameCounter := 2
  animationFrameId := some 1
  audioContext := none
  canvas := canvas0

def cfgEveryTick : EffectConfig :=
  { isColor := false, grainSize := 1, updateInterval := 0 }

def cfgInterval1 : EffectConfig :=
  { isColor := false, grainSize := 1, updateInterval := 1 }

def cfgInterval2 : EffectConfig :=
  { isColor := false, grainSize := 4, updateInterval := 2 }

def cfgCoarse : EffectConfig :=
  { isColor := true, grainSize := 4, updateInterval := 0 }

def cfgBlock2 : EffectConfig :=
  { isColor := false, grainSize := 2, updateInterval := 0 }

def cfgSound : EffectConfig :=
  { isColor := false, grainSize := 1, updateInterval := 0, withSound := true }

/-! ### Lemmas -/

lemma jsTrunc_lt {q : ℚ} {n : ℕ} (hn : n ≠ 0) (h : q < (n : ℚ)) : jsTrunc q < n := by
  rw [jsTrunc, Int.toNat_lt' hn]
  by_contra hle
  exact absurd (Rat.le_floor.mp (not_lt.mp hle)) (not_le.mpr (by exact_mod_cast h))

lemma rat_mul_lt_of_lt_one {r : ℚ} (n : ℕ) (hn : 0 < n) (h1 : r < 1) : r * (n : ℚ) < n := by
  calc r * (n : ℚ) < 1 * (n : ℚ) := by
        exact mul_lt_mul_of_pos_right h1 (by exact_mod_cast hn)
    _ = n := one_mul _

/-- Disjoint bitwise OR is addition: `(a <<< k) ||| b = a * 2^k + b` when `b < 2^k`. -/
lemma shiftLeft_or_eq_add {a b k : ℕ} (hb : b < 2 ^ k) : (a <<< k) ||| b = a * 2 ^ k + b := by
  rw [Nat.shiftLeft_eq, Nat.mul_comm a (2 ^ k), ← Nat.mul_add_lt_is_or hb a,
    Nat.mul_comm (2 ^ k) a]

/-- Closed form of the grayscale pixel packing for a byte-sized luminance. -/
lemma gray_pack_eq {g : ℕ} (hg : g < 256) :
    (255 <<< 24) ||| (g <<< 16) ||| (g <<< 8) ||| g =
      4278190080 + 65536 * g + 256 * g + g := by
  have h8 : (g <<< 8) ||| g = g * 256 + g := shiftLeft_or_eq_add (by omega)
  have h16 : (g <<< 16) ||| (g * 256 + g) = g * 65536 + (g * 256 + g) :=
    shiftLeft_or_eq_add (by omega)
  have h24 : (255 <<< 24) ||| (g * 65536 + (g * 256 + g)) =
      255 * 16777216 + (g * 65536 + (g * 256 + g)) :=
    shiftLeft_or_eq_add (by omega)
  rw [Nat.or_assoc, Nat.or_assoc, h8, h16, h24]
  ring

/-- Closed form of the colored pixel packing for a 24-bit color sample. -/
lemma color_pack_eq {c : ℕ} (hc : c < 16777216) :
    (255 <<< 24) ||| c = 4278190080 + c := by
  have := shiftLeft_or_eq_add (a := 255) (k := 24) (b := c) (by omega)
  omega

set_option maxRecDepth 8192 in
/-- Byte decomposition facts for the packed grayscale word, for every
byte-range luminance the generator can produce. -/
lemma gray_bytes : ∀ g : ℕ, g < 255 →
    4278190080 + 65536 * g + 256 * g + g < 4294967296 ∧
    (4278190080 + 65536 * g + 256 * g + g) / 16777216 = 255 ∧
    (4278190080 + 65536 * g + 256 * g + g) % 256 = g ∧
    (4278190080 + 65536 * g + 256 * g + g) / 256 % 256 = g ∧
    (4278190080 + 65536 * g + 256 * g + g) / 65536 % 256 = g := by decide

lemma jsTrunc_gray_lt {r : ℚ} (h1 : r < 1) : jsTrunc (r * 255) < 255 := by
  refine jsTrunc_lt (by omega) ?_
  exact_mod_cast rat_mul_lt_of_lt_one 255 (by omega) h1

/-- Every generated pixel value is a 32-bit pattern whose high (alpha) byte
is `255`: the surface is fully opaque. -/
lemma pixelColor_alpha {b : Bool} {r : ℚ} (h1 : r < 1) :
    pixelColor b r < 4294967296 ∧ pixelColor b r / 16777216 = 255 := by
  cases b with
  | true =>
    have hc : jsTrunc (r * 0x1000000) < 16777216 := by
      refine jsTrunc_lt (by omega) ?_
      exact_mod_cast rat_mul_lt_of_lt_one 16777216 (by omega) h1
    rw [pixelColor, if_pos rfl, color_pack_eq hc]
    omega
  | false =>
    have hg := jsTrunc_gray_lt h1
    rw [pixelColor, if_neg (by simp)]
    rw [gray_pack_eq (by omega)]
    exact ⟨(gray_bytes _ hg).1, (gray_bytes _ hg).2.1⟩

/-- Grayscale pixels carry one luminance `g ≤ 254` in all three low bytes. -/
lemma pixelColor_gray {r : ℚ} (h1 : r < 1) :
    ∃ g : ℕ, g ≤ 254 ∧
      pixelColor false r % 256 = g ∧
      pixelColor false r / 256 % 256 = g ∧
      pixelColor false r / 65536 % 256 = g := by
  have hg := jsTrunc_gray_lt h1
  refine ⟨jsTrunc (r * 255), by omega, ?_⟩
  rw [pixelColor, if_neg (by simp)]
  rw [gray_pack_eq (by omega)]
  exact ⟨(gray_bytes _ hg).2.2.1, (gray_bytes _ hg).2.2.2⟩

/-! ### Pixel-level characterisation of the generated buffers -/

lemma foldl_set_length (L : List ℕ) (buf : List ℕ) (c : ℕ) :
    (L.foldl (fun b i => b.set i c) buf).length = buf.length := by
  induction L generalizing buf with
  | nil => rfl
  | cons j L ih => simpa [List.foldl_cons] using ih (buf.set j c)

lemma foldl_set_getElem? (L : List ℕ) (buf : List ℕ) (c i : ℕ) :
    (L.foldl (fun b j => b.set j c) buf)[i]? =
      if i ∈ L ∧ i < buf.length then some c else buf[i]? := by
  induction L generalizing buf with
  | nil => simp
  | cons j L ih =>
    rw [List.foldl_cons, ih (buf.set j c)]
    rw [List.length_set]
    by_cases hmem : i ∈ L ∧ i < buf.length
    · simp [hmem, List.mem_cons]
    · rw [if_neg hmem, List.getElem?_set]
      by_cases hj : j = i
      · subst hj
        by_cases hlen : j < buf.length
        · simp [hlen, List.mem_cons]
        · simp only [hlen, if_false, if_true]
          rw [if_neg (by tauto), List.getElem?_eq_none (by omega)]
      · rw [if_neg hj, if_neg]
        rintro ⟨hm, hl⟩
        rcases List.mem_cons.mp hm with h | h
        · exact hj h.symm
        · exact hmem ⟨h, hl⟩

lemma index_inj {width a b a' b' : ℕ} (hb : b < width) (hb' : b' < width)
    (h : a * width + b = a' * width + b') : a = a' ∧ b = b' := by
  have hw : 0 < width := by omega
  have hmod : b = b' := by
    have h1 := congrArg (· % width) h
    simpa [Nat.mul_add_mod', Nat.mod_eq_of_lt hb, Nat.mod_eq_of_lt hb'] using h1
  subst hmod
  exact ⟨Nat.eq_of_mul_eq_mul_right hw (by omega), rfl⟩

lemma index_lt {width height px py : ℕ} (hpx : px < width) (hpy : py < height) :
    py * width + px < width * height := by
  calc py * width + px < py * width + width := by omega
    _ = (py + 1) * width := by ring
    _ ≤ height * width := Nat.mul_le_mul_right width (by omega)
    _ = width * height := Nat.mul_comm _ _

lemma mem_blockPixels {width height g x y px py : ℕ} (hpx : px < width) :
    py * width + px ∈ blockPixels width height g x y ↔
      (y ≤ py ∧ py < min (y + g) height ∧ x ≤ px ∧ px < min (x + g) width) := by
  rw [blockPixels, List.mem_flatMap]
  constructor
  · rintro ⟨blockY, hY, hmem⟩
    rw [List.mem_map] at hmem
    obtain ⟨blockX, hX, hidx⟩ := hmem
    rw [List.mem_range'] at hY hX
    obtain ⟨iY, hiY, rfl⟩ := hY
    obtain ⟨iX, hiX, rfl⟩ := hX
    have hXlt : x + 1 * iX < width := by omega
    obtain ⟨hY', hX'⟩ := index_inj (by omega) hpx hidx
    omega
  · rintro ⟨h1, h2, h3, h4⟩
    refine ⟨py, ?_, ?_⟩
    · rw [List.mem_range']
      exact ⟨py - y, by omega, by omega⟩
    · rw [List.mem_map]
      refine ⟨px, ?_, rfl⟩
      rw [List.mem_range']
      exact ⟨px - x, by omega, by omega⟩

lemma fillBlock_length (width height g x y c : ℕ) (buf : List ℕ) :
    (fillBlock width height g x y c buf).length = buf.length :=
  foldl_set_length _ _ _

lemma fillBlock_getElem? {width height g x y px py : ℕ} (c : ℕ) (buf : List ℕ)
    (hpx : px < width) (hpy : py < height)
    (hlen : buf.length = width * height) :
    (fillBlock width height g x y c buf)[py * width + px]? =
      if y ≤ py ∧ py < min (y + g) height ∧ x ≤ px ∧ px < min (x + g) width
      then some c else buf[py * width + px]? := by
  rw [fillBlock, foldl_set_getElem?, hlen]
  by_cases hin : y ≤ py ∧ py < min (y + g) height ∧ x ≤ px ∧ px < min (x + g) width
  · rw [if_pos hin, if_pos ⟨(mem_blockPixels hpx).mpr hin, index_lt hpx hpy⟩]
  · rw [if_neg hin, if_neg]
    intro ⟨hmem, _⟩
    exact hin ((mem_blockPixels hpx).mp hmem)

lemma mem_blockStarts {g limit v : ℕ} :
    v ∈ blockStarts g limit ↔ ∃ k, k < (limit + g - 1) / g ∧ v = k * g := by
  rw [blockStarts, List.mem_map]
  constructor
  · rintro ⟨k, hk, rfl⟩
    exact ⟨k, List.mem_range.mp hk, rfl⟩
  · rintro ⟨k, hk, rfl⟩
    exact ⟨k, List.mem_range.mpr hk, rfl⟩

lemma blockStart_self_mem {g limit p : ℕ} (hg : 1 ≤ g) (hp : p < limit) :
    p / g * g ∈ blockStarts g limit := by
  rw [mem_blockStarts]
  refine ⟨p / g, ?_, rfl⟩
  have h1 : p / g ≤ (limit - 1) / g := Nat.div_le_div_right (by omega)
  have h2 : (limit + g - 1) / g = (limit - 1) / g + 1 := by
    rw [show limit + g - 1 = (limit - 1) + g by omega, Nat.add_div_right _ (by omega)]
  omega

lemma lt_div_mul_add {g p : ℕ} (hg : 1 ≤ g) : p < p / g * g + g :=
  calc p = g * (p / g) + p % g := (Nat.div_add_mod p g).symm
    _ < g * (p / g) + g := Nat.add_lt_add_left (Nat.mod_lt p (by omega)) _
    _ = p / g * g + g := by rw [Nat.mul_comm]

lemma div_eq_of_between_multiple {g k p : ℕ} (hg : 1 ≤ g)
    (h1 : k * g ≤ p) (h2 : p < k * g + g) : p / g = k := by
  have := Nat.div_add_mod p g
  have hmod : p % g < g := Nat.mod_lt p (by omega)
  have hle : k ≤ p / g := by
    by_contra hlt
    have : p / g + 1 ≤ k := by omega
    have : (p / g + 1) * g ≤ k * g := Nat.mul_le_mul_right g this
    have hp : p < p / g * g + g := lt_div_mul_add hg
    have : p / g * g + g = (p / g + 1) * g := by ring
    omega
  have hge : p / g ≤ k := by
    by_contra hlt
    have : k + 1 ≤ p / g := by omega
    have : (k + 1) * g ≤ p / g * g := Nat.mul_le_mul_right g this
    have hdm : p / g * g ≤ p := Nat.div_mul_le_self p g
    have : (k + 1) * g = k * g + g := by ring
    omega
  omega

lemma foldl_length_preserved {α : Type} (step : List ℕ → α → List ℕ)
    (hstep : ∀ b a, (step b a).length = b.length) :
    ∀ (l : List α) (buf : List ℕ), (l.foldl step buf).length = buf.length := by
  intro l
  induction l with
  | nil => intro buf; rfl
  | cons a l ih =>
    intro buf
    rw [List.foldl_cons, ih (step buf a), hstep]

lemma innerFold_miss {width height g y py px : ℕ} (col : ℕ → ℕ)
    (hpx : px < width) (hpy : py < height)
    (hmiss : ¬(y ≤ py ∧ py < min (y + g) height)) :
    ∀ (xs : List ℕ) (buf : List ℕ), buf.length = width * height →
      (xs.foldl (fun b x => fillBlock width height g x y (col x) b)
        buf)[py * width + px]? = buf[py * width + px]? := by
  intro xs
  induction xs with
  | nil => intro buf _; rfl
  | cons x xs ih =>
    intro buf hlen
    rw [List.foldl_cons, ih _ (by rw [fillBlock_length]; exact hlen),
      fillBlock_getElem? _ _ hpx hpy hlen, if_neg (by tauto)]

lemma innerFold_hit {width height g y py px : ℕ} (col : ℕ → ℕ) (hg : 1 ≤ g)
    (hpx : px < width) (hpy : py < height)
    (hrow : y ≤ py ∧ py < min (y + g) height) :
    ∀ (xs : List ℕ), (∀ x ∈ xs, ∃ k, x = k * g) →
      ∀ (buf : List ℕ), buf.length = width * height →
      (xs.foldl (fun b x => fillBlock width height g x y (col x) b)
        buf)[py * width + px]? =
        if px / g * g ∈ xs then some (col (px / g * g))
        else buf[py * width + px]? := by
  intro xs
  induction xs with
  | nil => intro _ buf _; simp
  | cons x xs ih =>
    intro hmul buf hlen
    have hlen' : (fillBlock width height g x y (col x) buf).length =
        width * height := by rw [fillBlock_length]; exact hlen
    rw [List.foldl_cons, ih (fun x' hx' => hmul x' (List.mem_cons_of_mem _ hx')) _ hlen']
    by_cases hx : x = px / g * g
    · subst hx
      have hcond : y ≤ py ∧ py < min (y + g) height ∧
          px / g * g ≤ px ∧ px < min (px / g * g + g) width := by
        refine ⟨hrow.1, hrow.2, Nat.div_mul_le_self px g, ?_⟩
        exact lt_min (lt_div_mul_add hg) hpx
      rw [fillBlock_getElem? _ _ hpx hpy hlen, if_pos hcond,
        if_pos (List.mem_cons_self _ _)]
      by_cases hmem : px / g * g ∈ xs
      · rw [if_pos hmem]
      · rw [if_neg hmem]
    · obtain ⟨k, rfl⟩ := hmul x (List.mem_cons_self _ _)
      have hcond : ¬(y ≤ py ∧ py < min (y + g) height ∧
          k * g ≤ px ∧ px < min (k * g + g) width) := by
        rintro ⟨-, -, h1, h2⟩
        exact hx (congrArg (· * g)
          (div_eq_of_between_multiple hg h1 (lt_of_lt_of_le h2 (min_le_left _ _)))).symm
      rw [fillBlock_getElem? _ _ hpx hpy hlen, if_neg hcond]
      by_cases hmem : px / g * g ∈ xs
      · rw [if_pos hmem, if_pos (List.mem_cons_of_mem _ hmem)]
      · rw [if_neg hmem, if_neg]
        intro hm
        rcases List.mem_cons.mp hm with h | h
        · exact hx h.symm
        · exact hmem h

lemma outerFold {width height g : ℕ} (col : ℕ → ℕ → ℕ) (hg : 1 ≤ g)
    {px py : ℕ} (hpx : px < width) (hpy : py < height) :
    ∀ (ys : List ℕ), (∀ y ∈ ys, ∃ k, y = k * g) →
      ∀ (buf : List ℕ), buf.length = width * height →
      (ys.foldl (fun b y => (blockStarts g width).foldl
          (fun b' x => fillBlock width height g x y (col y x) b') b)
        buf)[py * width + px]? =
        if py / g * g ∈ ys then some (col (py / g * g) (px / g * g))
        else buf[py * width + px]? := by
  intro ys
  induction ys with
  | nil => intro _ buf _; simp
  | cons y ys ih =>
    intro hmul buf hlen
    have hlen' : ((blockStarts g width).foldl
        (fun b' x => fillBlock width height g x y (col y x) b') buf).length =
        width * height := by
      rw [foldl_length_preserved _ (fun b a => fillBlock_length _ _ _ _ _ _ b)]
      exact hlen
    rw [List.foldl_cons, ih (fun y' hy' => hmul y' (List.mem_cons_of_mem _ hy')) _ hlen']
    by_cases hy : y = py / g * g
    · subst hy
      have hrow : py / g * g ≤ py ∧ py < min (py / g * g + g) height :=
        ⟨Nat.div_mul_le_self py g, lt_min (lt_div_mul_add hg) hpy⟩
      have hx0 : px / g * g ∈ blockStarts g width := blockStart_self_mem hg hpx
      rw [innerFold_hit _ hg hpx hpy hrow _
          (fun x hx => mem_blockStarts.mp hx |>.imp fun k hk => hk.2) _ hlen,
        if_pos hx0, if_pos (List.mem_cons_self _ _)]
      by_cases hmem : py / g * g ∈ ys
      · rw [if_pos hmem]
      · rw [if_neg hmem]
    · obtain ⟨k, rfl⟩ := hmul _ (List.mem_cons_self _ _)
      have hmiss : ¬(k * g ≤ py ∧ py < min (k * g + g) height) := by
        rintro ⟨h1, h2⟩
        exact hy (congrArg (· * g)
          (div_eq_of_between_multiple hg h1 (lt_of_lt_of_le h2 (min_le_left _ _)))).symm
      rw [innerFold_miss _ hpx hpy hmiss _ _ hlen]
      by_cases hmem : py / g * g ∈ ys
      · rw [if_pos hmem, if_pos (List.mem_cons_of_mem _ hmem)]
      · rw [if_neg hmem, if_neg]
        intro hm
        rcases List.mem_cons.mp hm with h | h
        · exact hy h.symm
        · exact hmem h

/-- The buffer produced by `generateFrame` has exactly `width * height`
32-bit entries. -/
lemma generateFrame_length (cfg : EffectConfig) (rng : ℕ → ℕ → ℚ)
    (width height : ℕ) :
    (generateFrame cfg rng width height).length = width * height := by
  rw [generateFrame]
  rw [foldl_length_preserved _ (fun b y =>
    foldl_length_preserved _ (fun b' x => fillBlock_length _ _ _ _ _ _ b') _ b)]
  exact List.length_replicate _ _

/-- Closed form of a generated buffer: the pixel at `(px, py)` holds the
single color sampled for the grain block whose origin is
`(px / g * g, py / g * g)`. -/
lemma generateFrame_getElem? {cfg : EffectConfig} (rng : ℕ → ℕ → ℚ)
    {width height px py : ℕ} (hg : 1 ≤ cfg.grainSize)
    (hpx : px < width) (hpy : py < height) :
    (generateFrame cfg rng width height)[py * width + px]? =
      some (pixelColor cfg.isColor
        (rng (py / cfg.grainSize * cfg.grainSize)
             (px / cfg.grainSize * cfg.grainSize))) := by
  rw [generateFrame]
  rw [outerFold (fun y x => pixelColor cfg.isColor (rng y x)) hg hpx hpy _
      (fun y hy => mem_blockStarts.mp hy |>.imp fun k hk => hk.2) _
      (List.length_replicate _ _),
    if_pos (blockStart_self_mem hg hpy)]

lemma generateFrames_length (cfg : EffectConfig) (rng : ℕ → ℕ → ℕ → ℚ)
    (width height : ℕ) :
    (generateFrames cfg rng width height).length = frameCount := by
  rw [generateFrames, List.length_map, List.length_range]

lemma generateFrames_getElem? (cfg : EffectConfig) (rng : ℕ → ℕ → ℕ → ℚ)
    (width height : ℕ) {i : ℕ} (hi : i < frameCount) :
    (generateFrames cfg rng width height)[i]? =
      some (generateFrame cfg (rng i) width height) := by
  rw [generateFrames, List.getElem?_map, List.getElem?_range hi, Option.map_some']

lemma drawCount_zero (k : ℕ) : drawCount k 0 = 0 := by
  simp [drawCount]

lemma drawCount_succ (k n : ℕ) :
    drawCount k (n + 1) = drawCount k n + if draws k (n + 1) then 1 else 0 := by
  by_cases hk : k ≤ 1
  · simp [drawCount, draws, hk]
  · have h2 : 2 ≤ k := by omega
    rw [drawCount, drawCount, if_neg hk, if_neg hk, Nat.succ_div]
    congr 1
    by_cases hdvd : k ∣ n + 1
    · rw [if_pos hdvd, if_pos]
      simp only [draws, Bool.or_eq_true, decide_eq_true_eq]
      exact Or.inr (Nat.dvd_iff_mod_eq_zero.mp hdvd)
    · rw [if_neg hdvd, if_neg]
      simp only [draws, Bool.or_eq_true, decide_eq_true_eq]
      rintro (h | h)
      · exact hk h
      · exact hdvd (Nat.dvd_iff_mod_eq_zero.mpr h)

lemma succ_mod (n k : ℕ) (hk : 1 ≤ k) :
    (n + 1) % k = if n % k + 1 = k then 0 else n % k + 1 := by
  rw [← Nat.mod_add_mod]
  have hr : n % k < k := Nat.mod_lt n (by omega)
  by_cases h : n % k + 1 = k
  · rw [if_pos h, h, Nat.mod_self]
  · rw [if_neg h, Nat.mod_eq_of_lt (by omega)]

/-- Closed form for `n` ticks of `animate` started from a fresh counter:
the counter cycles, `currentFrame` advances once per draw, the canvas shows
the last drawn frame, and the log records exactly which ticks drew. -/
lemma runTicks_spec (cfg : EffectConfig) (s0 : EngineState)
    (h0 : s0.frameCounter = 0) (hi : s0.currentFrame < s0.frameCount) :
    ∀ n, runTicks cfg s0 n =
      ({ s0 with
          animationFrameId := if n = 0 then s0.animationFrameId else some 1
          frameCounter :=
            if cfg.updateInterval ≤ 1 then 0 else n % cfg.updateInterval
          currentFrame :=
            (s0.currentFrame + drawCount cfg.updateInterval n) % s0.frameCount
          canvas := { s0.canvas with displayed :=
            if (drawCount cfg.updateInterval n = 0) then s0.canvas.displayed
            else s0.frames[(s0.currentFrame + drawCount cfg.updateInterval n - 1)
              % s0.frameCount]? } },
       (List.range n).map fun j =>
         if draws cfg.updateInterval (j + 1)
         then some ((s0.currentFrame + drawCount cfg.updateInterval j)
           % s0.frameCount)
         else none) := by
  intro n
  induction n with
  | zero =>
    obtain ⟨fc, fr, cf, fcn, ai, au, cv⟩ := s0
    obtain ⟨cw, ch, cd⟩ := cv
    simp only at h0 hi
    subst h0
    simp [runTicks, drawCount_zero, Nat.mod_eq_of_lt hi]
  | succ n ih =>
    have hfc : 0 < s0.frameCount := by omega
    simp only [runTicks, ih]
    by_cases hk : cfg.updateInterval ≤ 1
    · have hcond : (if cfg.updateInterval ≤ 1 then 0 else n % cfg.updateInterval)
          + 1 ≥ cfg.updateInterval := by
        rw [if_pos hk]; omega
      have hdc : drawCount cfg.updateInterval (n + 1) =
          drawCount cfg.updateInterval n + 1 := by
        rw [drawCount_succ, if_pos]
        simp [draws, hk]
      have hdraws : draws cfg.updateInterval (n + 1) = true := by
        simp [draws, hk]
      simp only [animate, if_pos hcond, List.range_succ, List.map_append,
        List.map_cons, List.map_nil, hdraws, if_pos hk, if_true]
      refine Prod.ext ?_ rfl
      simp only [hdc]
      congr 1
      rw [Nat.mod_add_mod, Nat.add_assoc]
    · have h2 : 2 ≤ cfg.updateInterval := by omega
      by_cases hz : (n + 1) % cfg.updateInterval = 0
      · have hcond : (if cfg.updateInterval ≤ 1 then 0
            else n % cfg.updateInterval) + 1 ≥ cfg.updateInterval := by
          rw [if_neg hk]
          rw [succ_mod n _ (by omega)] at hz
          by_cases h : n % cfg.updateInterval + 1 = cfg.updateInterval
          · omega
          · rw [if_neg h] at hz; omega
        have hdraws : draws cfg.updateInterval (n + 1) = true := by
          simp [draws, hz]
        have hdc : drawCount cfg.updateInterval (n + 1) =
            drawCount cfg.updateInterval n + 1 := by
          rw [drawCount_succ, if_pos hdraws]
        simp only [animate, if_pos hcond, List.range_succ, List.map_append,
          List.map_cons, List.map_nil, hdraws, if_true]
        refine Prod.ext ?_ rfl
        simp only [hdc, if_neg hk, hz]
        congr 1
        rw [Nat.mod_add_mod, Nat.add_assoc]
      · have hcond : ¬((if cfg.updateInterval ≤ 1 then 0
            else n % cfg.updateInterval) + 1 ≥ cfg.updateInterval) := by
          rw [if_neg hk]
          rw [succ_mod n _ (by omega)] at hz
          by_cases h : n % cfg.updateInterval + 1 = cfg.updateInterval
          · rw [if_pos h] at hz; omega
          · have := Nat.mod_lt n (show 0 < cfg.updateInterval by omega)
            omega
        have hdraws : draws cfg.updateInterval (n + 1) = false := by
          simp [draws, hz]
          omega
        have hdc : drawCount cfg.updateInterval (n + 1) =
            drawCount cfg.updateInterval n := by
          rw [drawCount_succ, if_neg (by simp [hdraws]), Nat.add_zero]
        have hmod : n % cfg.updateInterval + 1 = (n + 1) % cfg.updateInterval := by
          rw [succ_mod n _ (by omega)]
          rw [succ_mod n _ (by omega)] at hz
          by_cases h : n % cfg.updateInterval + 1 = cfg.updateInterval
          · rw [if_pos h] at hz; omega
          · rw [if_neg h]
        simp only [animate, if_neg hcond, List.range_succ, List.map_append,
          List.map_cons, List.map_nil, hdraws, if_false, Bool.false_eq_true]
        refine Prod.ext ?_ rfl
        simp only [hdc, if_neg hk, hmod]
        rfl

lemma counter_threshold_iff (k m : ℕ) :
    ((if k ≤ 1 then 0 else m % k) + 1 ≥ k) ↔ draws k (m + 1) = true := by
  by_cases hk : k ≤ 1
  · simp only [if_pos hk, draws, Bool.or_eq_true, decide_eq_true_eq]
    constructor
    · intro _; exact Or.inl hk
    · intro _; omega
  · have h2 : 2 ≤ k := by omega
    have hr : m % k < k := Nat.mod_lt m (by omega)
    rw [if_neg hk]
    simp only [draws, Bool.or_eq_true, decide_eq_true_eq]
    rw [succ_mod m k (by omega)]
    constructor
    · intro h
      refine Or.inr ?_
      rw [if_pos (by omega)]
    · rintro (h | h)
      · omega
      · by_cases hc : m % k + 1 = k
        · omega
        · rw [if_neg hc] at h; omega

lemma filterMap_draw_log (k i0 fc : ℕ) :
    ∀ n, ((List.range n).map fun j =>
        if draws k (j + 1) then some ((i0 + drawCount k j) % fc) else none).filterMap id =
      (List.range (drawCount k n)).map fun m => (i0 + m) % fc := by
  intro n
  induction n with
  | zero => simp [drawCount_zero]
  | succ n ih =>
    rw [List.range_succ, List.map_append, List.filterMap_append, ih,
      drawCount_succ]
    by_cases hd : draws k (n + 1) = true
    · simp [hd, List.range_succ]
    · simp [hd]

lemma stop_fields (s : EngineState) :
    (stop s).animationFrameId = none ∧ (stop s).audioContext = none := by
  rw [stop]
  cases h1 : s.animationFrameId <;> cases h2 : s.audioContext <;> simp [h1, h2]

lemma stop_of_none {s : EngineState} (h1 : s.animationFrameId = none)
    (h2 : s.audioContext = none) : stop s = s := by
  simp [stop, h1, h2]

lemma mem_generateFrames {cfg : EffectConfig} {rng : ℕ → ℕ → ℕ → ℚ}
    {width height : ℕ} {f : List ℕ}
    (hf : f ∈ generateFrames cfg rng width height) :
    ∃ i < frameCount, f = generateFrame cfg (rng i) width height := by
  rw [generateFrames, List.mem_map] at hf
  obtain ⟨i, hi, rfl⟩ := hf
  exact ⟨i, List.mem_range.mp hi, rfl⟩

/-- Every element of a generated buffer is the color sampled for some
block. -/
lemma mem_generateFrame_pixel {cfg : EffectConfig} {rng : ℕ → ℕ → ℚ}
    {width height p : ℕ} (hg : 1 ≤ cfg.grainSize)
    (hp : p ∈ generateFrame cfg rng width height) :
    ∃ y x, p = pixelColor cfg.isColor (rng y x) := by
  rw [List.mem_iff_getElem?] at hp
  obtain ⟨j, hj⟩ := hp
  have hjlt : j < width * height := by
    have := List.getElem?_eq_some_iff.mp hj
    obtain ⟨hlt, -⟩ := this
    rwa [generateFrame_length] at hlt
  have hw : 0 < width := by
    rcases Nat.eq_zero_or_pos width with h | h
    · subst h; rw [Nat.zero_mul] at hjlt; omega
    · exact h
  have hpx : j % width < width := Nat.mod_lt j hw
  have hpy : j / width < height := (Nat.div_lt_iff_lt_mul hw).mpr
    (by rwa [Nat.mul_comm height width])
  have hsplit : j / width * width + j % width = j := by
    have h1 := Nat.div_add_mod j width
    rw [Nat.mul_comm] at h1
    omega
  rw [← hsplit, generateFrame_getElem? rng hg hpx hpy] at hj
  exact ⟨_, _, (Option.some_inj.mp hj).symm⟩

/-- Ticking never touches the audio context: `animate` reads and writes
only the visual state, so a failed audio setup is never retried by the
scheduler. -/
lemma animate_audioContext (cfg : EffectConfig) (s : EngineState) :
    (animate cfg s).1.audioContext = s.audioContext := by
  rw [animate]
  dsimp only
  split <;> rfl

/-! ### Theorems for the claims -/

/-! ### The claims -/

/-- C2 (corrected): the first tick after `start()` on a fresh instance
draws if and only if `updateInterval ≤ 1`.  The counter is incremented
*before* the `frameCounter >= updateInterval` comparison, so the first
comparison is `1 >= updateInterval`, not `0 >= updateInterval`. -/
theorem start_first_tick_draw_iff (cfg : EffectConfig) (rng : ℕ → ℕ → ℕ → ℚ)
    (vw vh : ℕ) (audioOk : Bool) (c : Canvas) :
    ((start cfg rng vw vh audioOk (initState c)).2).isSome =
      decide (cfg.updateInterval ≤ 1) := by
  rw [start, animate]
  by_cases hk : cfg.updateInterval ≤ 1
  · rw [if_pos]
    · simp [hk]
    · show (setup cfg rng vw vh (initState c)).frameCounter + 1 ≥ cfg.updateInterval
      simp only [setup, initState]
      omega
  · rw [if_neg]
    · simp [hk]
    · show ¬((setup cfg rng vw vh (initState c)).frameCounter + 1 ≥ cfg.updateInterval)
      simp only [setup, initState]
      omega

/-- C2 (counterexample to the claim as stated): with `updateInterval = 2`
the very first tick after `start()` draws nothing — the claim that the
first tick always draws is false. -/
theorem start_first_tick_no_draw :
    (start cfgInterval2 rng0 4 4 true (initState canvas0)).2 = none := rfl

/-- C3 (counterexample to the claim as stated): `resize()` does *not*
reset the playback index or the tick counter — from a state with
`currentFrame = 3`, `frameCounter = 2` they survive a resize unchanged. -/
theorem resize_does_not_reset :
    (resize cfgEveryTick rng0 4 4 midState).currentFrame = 3 ∧
    (resize cfgEveryTick rng0 4 4 midState).frameCounter = 2 ∧
    ¬((resize cfgEveryTick rng0 4 4 midState).currentFrame = 0 ∧
      (resize cfgEveryTick rng0 4 4 midState).frameCounter = 0) := by
  refine ⟨rfl, rfl, ?_⟩
  rintro ⟨h, -⟩
  exact absurd h (by decide)

/-- C3 (amended): `resize()` discards all previously generated frame
buffers and synchronously regenerates them at the newly computed
dimensions, but leaves `currentFrame` and `frameCounter` (and the rest of
the engine state) unchanged. -/
theorem resize_spec (cfg : EffectConfig) (rng : ℕ → ℕ → ℕ → ℚ)
    (vw vh : ℕ) (s : EngineState) :
    (resize cfg rng vw vh s).currentFrame = s.currentFrame ∧
    (resize cfg rng vw vh s).frameCounter = s.frameCounter ∧
    (resize cfg rng vw vh s).frames =
      generateFrames cfg rng
        (vw / (if cfg.grainSize > 1 then cfg.grainSize else 1))
        (vh / (if cfg.grainSize > 1 then cfg.grainSize else 1)) :=
  ⟨rfl, rfl, rfl⟩

/-- C4 (counterexample to the claim as stated): there is no minimum-1
clamp — with viewport `3 × 3` and `grainSize = 4` the computed surface
width is `floor (3 / 4) = 0`, not at least `1`. -/
theorem setup_dimension_zero :
    (setup cfgCoarse rng0 3 3 (initState canvas0)).canvas.width = 0 := rfl

/-- C4 (amended): the computed surface dimensions are
`floor (viewport / scale)` per axis with `scale = grainSize` when
`grainSize > 1` and `scale = 1` otherwise; there is no lower bound (a
viewport smaller than the scale yields dimension `0`). -/
theorem setup_dimensions_spec (cfg : EffectConfig) (rng : ℕ → ℕ → ℕ → ℚ)
    (vw vh : ℕ) (s : EngineState) :
    (setup cfg rng vw vh s).canvas.width =
      vw / (if cfg.grainSize > 1 then cfg.grainSize else 1) ∧
    (setup cfg rng vw vh s).canvas.height =
      vh / (if cfg.grainSize > 1 then cfg.grainSize else 1) :=
  ⟨rfl, rfl⟩

/-- C1 (corrected): from a fresh counter, `updateInterval = 0` draws on
every tick, and `updateInterval = k > 0` draws exactly on every `k`-th
tick (ticks `k, 2k, 3k, …` — so the period is `k`, not `k + 1`, and
`k = 1` draws every tick); on non-drawing ticks nothing is written to the
canvas, so the previously drawn frame stays visible. -/
theorem draw_cadence (cfg : EffectConfig) (s0 : EngineState) (t : ℕ)
    (h0 : s0.frameCounter = 0) (hi : s0.currentFrame < s0.frameCount)
    (ht : 1 ≤ t) :
    drewAt cfg s0 t =
      (decide (cfg.updateInterval ≤ 1) || decide (t % cfg.updateInterval = 0)) ∧
    (¬(cfg.updateInterval ≤ 1 ∨ t % cfg.updateInterval = 0) →
      (runTicks cfg s0 t).1.canvas = (runTicks cfg s0 (t - 1)).1.canvas) := by
  obtain ⟨m, rfl⟩ : ∃ m, t = m + 1 := ⟨t - 1, by omega⟩
  constructor
  · rw [drewAt, Nat.add_sub_cancel, runTicks_spec cfg s0 h0 hi m, animate]
    by_cases hd : draws cfg.updateInterval (m + 1) = true
    · rw [if_pos]
      · simp only [Option.isSome_some]
        rw [draws] at hd
        exact hd.symm
      · show _ + 1 ≥ cfg.updateInterval
        exact (counter_threshold_iff cfg.updateInterval m).mpr hd
    · rw [if_neg]
      · simp only [Option.isSome_none]
        rw [draws] at hd
        simpa using (Bool.not_eq_true _).mp hd |>.symm
      · show ¬(_ + 1 ≥ cfg.updateInterval)
        intro hge
        exact hd ((counter_threshold_iff cfg.updateInterval m).mp hge)
  · intro hnd
    have hd : draws cfg.updateInterval (m + 1) = false := by
      rw [draws]
      simpa using hnd
    have hdc : drawCount cfg.updateInterval (m + 1) =
        drawCount cfg.updateInterval m := by
      rw [drawCount_succ, hd]
      simp
    rw [Nat.add_sub_cancel, runTicks_spec cfg s0 h0 hi (m + 1),
      runTicks_spec cfg s0 h0 hi m]
    simp only [hdc]

/-- C1 (counterexample to the claim as stated): with `updateInterval = 1`
the claim predicts a draw only on every 2nd tick (ticks 2, 4, …, with no
draw in between), but the code draws on tick 1 and on tick 2. -/
theorem draw_cadence_claim_false :
    drewAt cfgInterval1 (initState canvas0) 1 = true ∧
    drewAt cfgInterval1 (initState canvas0) 2 = true := by
  constructor <;> rfl

/-- C1 (witness). -/
theorem draw_cadence_witness :
    drewAt cfgInterval2 (initState canvas0) 2 =
      (decide (cfgInterval2.updateInterval ≤ 1) ||
       decide (2 % cfgInterval2.updateInterval = 0)) ∧
    (¬(cfgInterval2.updateInterval ≤ 1 ∨ 2 % cfgInterval2.updateInterval = 0) →
      (runTicks cfgInterval2 (initState canvas0) 2).1.canvas =
        (runTicks cfgInterval2 (initState canvas0) 1).1.canvas) :=
  draw_cadence cfgInterval2 (initState canvas0) 2 rfl (by decide) (by decide)

/-- C7 (confirmed): frames are drawn in strict cyclic cache order: over
any run of ticks from a fresh counter, the sequence of drawn indices is
`i0, i0+1 mod 10, i0+2 mod 10, …` (no skip, no repeat except modulo
wraparound), and after exactly `cacheSize = 10` draws the playback index
is back at its starting value. -/
theorem cyclic_playback (cfg : EffectConfig) (s0 : EngineState) (n : ℕ)
    (h0 : s0.frameCounter = 0) (hi : s0.currentFrame < s0.frameCount)
    (hfc : s0.frameCount = 10) :
    (runTicks cfg s0 n).2.filterMap id =
      (List.range (drawCount cfg.updateInterval n)).map
        (fun m => (s0.currentFrame + m) % 10) ∧
    (drawCount cfg.updateInterval n = 10 →
      (runTicks cfg s0 n).1.currentFrame = s0.currentFrame) := by
  constructor
  · rw [runTicks_spec cfg s0 h0 hi n]
    simp only [hfc]
    exact filterMap_draw_log cfg.updateInterval s0.currentFrame 10 n
  · intro hdc
    rw [runTicks_spec cfg s0 h0 hi n]
    show (s0.currentFrame + drawCount cfg.updateInterval n) % s0.frameCount =
      s0.currentFrame
    rw [hdc, hfc, Nat.add_mod_right, Nat.mod_eq_of_lt (by omega)]

/-- C7 (witness): ten ticks at `updateInterval = 0` draw frames
`0, 1, …, 9` and return the playback index to `0`. -/
theorem cyclic_playback_witness :
    (runTicks cfgEveryTick (initState canvas0) 10).2.filterMap id =
      (List.range (drawCount cfgEveryTick.updateInterval 10)).map
        (fun m => ((initState canvas0).currentFrame + m) % 10) ∧
    (drawCount cfgEveryTick.updateInterval 10 = 10 →
      (runTicks cfgEveryTick (initState canvas0) 10).1.currentFrame =
        (initState canvas0).currentFrame) :=
  cyclic_playback cfgEveryTick (initState canvas0) 10 rfl (by decide) rfl

/-- C8 (confirmed): `stop()` is idempotent and safe before any `start()`:
a second consecutive `stop()` changes nothing, and `stop()` on a freshly
created instance is a no-op. -/
theorem stop_idempotent (s : EngineState) (c : Canvas) :
    stop (stop s) = stop s ∧ stop (initState c) = initState c :=
  ⟨stop_of_none (stop_fields s).1 (stop_fields s).2, stop_of_none rfl rfl⟩

/-- C5 (confirmed): one regeneration produces exactly 10 frame buffers,
each with exactly `width * height` pixels, and every pixel of every
buffer is a 32-bit value whose alpha byte is 255 (fully opaque). -/
theorem regenerate_cache_shape (cfg : EffectConfig) (rng : ℕ → ℕ → ℕ → ℚ)
    (width height : ℕ) (hg : 1 ≤ cfg.grainSize)
    (hr : ∀ i y x, 0 ≤ rng i y x ∧ rng i y x < 1) :
    (generateFrames cfg rng width height).length = 10 ∧
    ∀ f ∈ generateFrames cfg rng width height,
      f.length = width * height ∧
      ∀ p ∈ f, p < 4294967296 ∧ p / 16777216 = 255 := by
  refine ⟨generateFrames_length cfg rng width height, ?_⟩
  intro f hf
  obtain ⟨i, hi, rfl⟩ := mem_generateFrames hf
  refine ⟨generateFrame_length cfg (rng i) width height, ?_⟩
  intro p hp
  obtain ⟨y, x, rfl⟩ := mem_generateFrame_pixel hg hp
  exact pixelColor_alpha (hr i y x).2

/-- C5 (witness). -/
theorem regenerate_cache_shape_witness :
    (generateFrames cfgEveryTick rng0 2 2).length = 10 ∧
    ∀ f ∈ generateFrames cfgEveryTick rng0 2 2,
      f.length = 2 * 2 ∧
      ∀ p ∈ f, p < 4294967296 ∧ p / 16777216 = 255 :=
  regenerate_cache_shape cfgEveryTick rng0 2 2 (by decide)
    (fun _ _ _ => ⟨le_refl 0, zero_lt_one⟩)

/-- C6 (confirmed): inside any generated buffer, the pixel at `(px, py)`
holds exactly the one color sampled for the grain block with origin
`(px / g * g, py / g * g)`; hence any two pixels of the same block —
including blocks clipped at the right/bottom surface edges — hold the
same 32-bit value. -/
theorem grain_block_invariant (cfg : EffectConfig) (rng : ℕ → ℕ → ℕ → ℚ)
    (width height i px py qx qy : ℕ) (hg : 1 ≤ cfg.grainSize) (hi : i < 10)
    (hpx : px < width) (hpy : py < height) (hqx : qx < width) (hqy : qy < height)
    (hbx : px / cfg.grainSize = qx / cfg.grainSize)
    (hby : py / cfg.grainSize = qy / cfg.grainSize) :
    ((generateFrames cfg rng width height).getD i [])[py * width + px]? =
      some (pixelColor cfg.isColor
        (rng i (py / cfg.grainSize * cfg.grainSize)
               (px / cfg.grainSize * cfg.grainSize))) ∧
    ((generateFrames cfg rng width height).getD i [])[py * width + px]? =
      ((generateFrames cfg rng width height).getD i [])[qy * width + qx]? := by
  have hD : (generateFrames cfg rng width height).getD i [] =
      generateFrame cfg (rng i) width height := by
    rw [List.getD_eq_getElem?_getD, generateFrames_getElem? cfg rng width height hi]
    rfl
  rw [hD, generateFrame_getElem? (rng i) hg hpx hpy,
    generateFrame_getElem? (rng i) hg hqx hqy, hbx, hby]
  exact ⟨rfl, rfl⟩

/-- C6 (witness): on a 3×3 surface with `grainSize = 2`, pixels `(0,0)`
and `(1,1)` lie in the same block and hold the same sampled color. -/
theorem grain_block_invariant_witness :
    ((generateFrames cfgBlock2 rng0 3 3).getD 0 [])[0 * 3 + 0]? =
      some (pixelColor cfgBlock2.isColor
        (rng0 0 (0 / cfgBlock2.grainSize * cfgBlock2.grainSize)
               (0 / cfgBlock2.grainSize * cfgBlock2.grainSize))) ∧
    ((generateFrames cfgBlock2 rng0 3 3).getD 0 [])[0 * 3 + 0]? =
      ((generateFrames cfgBlock2 rng0 3 3).getD 0 [])[1 * 3 + 1]? :=
  grain_block_invariant cfgBlock2 rng0 3 3 0 0 0 1 1 (by decide) (by decide)
    (by decide) (by decide) (by decide) (by decide) (by decide) (by decide)

/-- C10 (confirmed): in grayscale mode every generated pixel's red, green
and blue bytes hold one identical luminance `g`, and `g ≤ 254` — the
value 255 can never be produced, because the sample is drawn from
`[0, 255)` and truncated toward zero. -/
theorem grayscale_channels (cfg : EffectConfig) (rng : ℕ → ℕ → ℕ → ℚ)
    (width height : ℕ) (hg : 1 ≤ cfg.grainSize) (hcol : cfg.isColor = false)
    (hr : ∀ i y x, 0 ≤ rng i y x ∧ rng i y x < 1) :
    ∀ f ∈ generateFrames cfg rng width height, ∀ p ∈ f,
      ∃ g ≤ 254, p % 256 = g ∧ p / 256 % 256 = g ∧ p / 65536 % 256 = g := by
  intro f hf p hp
  obtain ⟨i, hi, rfl⟩ := mem_generateFrames hf
  obtain ⟨y, x, rfl⟩ := mem_generateFrame_pixel hg hp
  rw [hcol]
  obtain ⟨g, hg254, h1, h2, h3⟩ := pixelColor_gray (hr i y x).2
  exact ⟨g, hg254, h1, h2, h3⟩

/-- C10 (witness): the pixel at `(0, 0)` of the first generated buffer. -/
theorem grayscale_channels_witness :
    ∃ g ≤ 254,
      pixelColor false (rng0 0 0 0) % 256 = g ∧
      pixelColor false (rng0 0 0 0) / 256 % 256 = g ∧
      pixelColor false (rng0 0 0 0) / 65536 % 256 = g := by
  refine grayscale_channels cfgEveryTick rng0 2 2 (by decide) rfl
    (fun _ _ _ => ⟨le_refl 0, zero_lt_one⟩)
    (generateFrame cfgEveryTick (rng0 0) 2 2) ?_ _ ?_
  · rw [generateFrames]
    exact List.mem_map_of_mem _ (by decide)
  · exact List.mem_iff_getElem?.mpr
      ⟨0, @generateFrame_getElem? cfgEveryTick (rng0 0) 2 2 0 0
        (by decide) (by decide) (by decide)⟩

/-- C9 (confirmed): if audio pipeline construction during `start()`
fails, the failure does not reach the visual path — the resulting state
agrees with a successful start on every visual field and on the first
tick's draw, the partially created audio session is released
(`audioContext = none`), and no tick ever re-attempts audio setup. -/
theorem audio_failure_isolated (cfg : EffectConfig) (rng : ℕ → ℕ → ℕ → ℚ)
    (vw vh : ℕ) (s : EngineState)
    (hsound : cfg.withSound = true) (hau : s.audioContext = none) :
    (start cfg rng vw vh false s).2 = (start cfg rng vw vh true s).2 ∧
    (start cfg rng vw vh false s).1.canvas =
      (start cfg rng vw vh true s).1.canvas ∧
    (start cfg rng vw vh false s).1.frames =
      (start cfg rng vw vh true s).1.frames ∧
    (start cfg rng vw vh false s).1.currentFrame =
      (start cfg rng vw vh true s).1.currentFrame ∧
    (start cfg rng vw vh false s).1.frameCounter =
      (start cfg rng vw vh true s).1.frameCounter ∧
    (start cfg rng vw vh false s).1.animationFrameId =
      (start cfg rng vw vh true s).1.animationFrameId ∧
    (start cfg rng vw vh false s).1.audioContext = none ∧
    (∀ s' : EngineState, (animate cfg s').1.audioContext = s'.audioContext) := by
  have hA : (animate cfg (setup cfg rng vw vh s)).1.audioContext = none := by
    rw [animate_audioContext]
    exact hau
  have hfail : (start cfg rng vw vh false s).1 =
      { (animate cfg (setup cfg rng vw vh s)).1 with audioContext := none } := by
    show setupAudio cfg false (animate cfg (setup cfg rng vw vh s)).1 = _
    rw [setupAudio, hsound, hA]
    rfl
  have hok : (start cfg rng vw vh true s).1 =
      { (animate cfg (setup cfg rng vw vh s)).1 with audioContext := some () } := by
    show setupAudio cfg true (animate cfg (setup cfg rng vw vh s)).1 = _
    rw [setupAudio, hsound, hA]
    rfl
  refine ⟨rfl, ?_, ?_, ?_, ?_, ?_, ?_, animate_audioContext cfg⟩
  · rw [hfail, hok]
  · rw [hfail, hok]
  · rw [hfail, hok]
  · rw [hfail, hok]
  · rw [hfail, hok]
  · rw [hfail]

/-- C9 (witness). -/
theorem audio_failure_isolated_witness :
    (start cfgSound rng0 2 2 false (initState canvas0)).2 =
      (start cfgSound rng0 2 2 true (initState canvas0)).2 ∧
    (start cfgSound rng0 2 2 false (initState canvas0)).1.canvas =
      (start cfgSound rng0 2 2 true (initState canvas0)).1.canvas ∧
    (start cfgSound rng0 2 2 false (initState canvas0)).1.frames =
      (start cfgSound rng0 2 2 true (initState canvas0)).1.frames ∧
    (start cfgSound rng0 2 2 false (initState canvas0)).1.currentFrame =
      (start cfgSound rng0 2 2 true (initState canvas0)).1.currentFrame ∧
    (start cfgSound rng0 2 2 false (initState canvas0)).1.frameCounter =
      (start cfgSound rng0 2 2 true (initState canvas0)).1.frameCounter ∧
    (start cfgSound rng0 2 2 false (initState canvas0)).1.animationFrameId =
      (start cfgSound rng0 2 2 true (initState canvas0)).1.animationFrameId ∧
    (start cfgSound rng0 2 2 false (initState canvas0)).1.audioContext = none ∧
    (∀ s' : EngineState,
      (animate cfgSound s').1.audioContext = s'.audioContext) :=
  audio_failure_isolated cfgSound rng0 2 2 (initState canvas0) rfl rfl

end TVNoise
